import Mathlib

/-!
Shallow embedding of `build/purger/purger.py` (raiden-service-bundle).

The purger keeps a JSON ledger `UserActivityInfo` mapping each network key to a
dict from matrix user id to a last-seen unix timestamp.  One pass
(`run_user_purger`) optionally refreshes membership from the per-network
discovery rooms, probes the presence of overdue accounts, and deactivates the
accounts confirmed offline.

Python dicts are embedded as association lists (`List (String × α)`) with the
dict semantics: updating an existing key keeps its position, inserting a new
key appends, a key occurs at most once (tracked through `Nodup` hypotheses on
the key list where a proof needs it).  Machine integers are `Int` (Python ints
are unbounded).  The remote matrix API is an `Oracles` record of pure
functions; a `MatrixError` raised by a remote call is the `Except.error` case.
`KeyError` on a plain dict subscript is *not* a `MatrixError` and is therefore
modelled as an uncaught `Except.error` escaping the purge loop, exactly as in
the source.  Time pacing (`time.sleep`) and logging have no observable effect
on the state and are dropped.
-/

namespace Purger

/-- `USER_PURGING_THRESHOLD = 2 * 24 * 60 * 60` from `purger.py`. -/
def USER_PURGING_THRESHOLD : Int := 2 * 24 * 60 * 60

/-- A Python dict from user id to last-seen timestamp, as an association list. -/
abbrev Dict := List (String × Int)

/-- Dict lookup: first binding of the key (Python dicts never hold two). -/
def alookup {α : Type} : List (String × α) → String → Option α
  | [], _ => none
  | p :: rest, k => if p.1 = k then some p.2 else alookup rest k

/-- Dict assignment `d[k] = v`: update in place when present, append when new. -/
def aset {α : Type} : List (String × α) → String → α → List (String × α)
  | [], k, v => [(k, v)]
  | p :: rest, k, v => if p.1 = k then (k, v) :: rest else p :: aset rest k v

/-- Dict deletion `d.pop(k, None)`: drop the binding of `k` when present. -/
def aerase {α : Type} : List (String × α) → String → List (String × α)
  | [], _ => []
  | p :: rest, k => if p.1 = k then rest else p :: aerase rest k

/-- The key list of a dict. -/
def akeys {α : Type} (d : List (String × α)) : List String := d.map Prod.fst

/-- `RoomInfo` dataclass from `purger.py` (only `room_id` is consumed later). -/
structure RoomInfo where
  room_id : String
  room_alias : String
  server_name : String
deriving DecidableEq

/-- A successful `GET presence` response: `presence` is required (a missing
`presence` field would be a `KeyError`, which never happens for a well-formed
server), `last_active_ago` (milliseconds) may be absent. -/
structure PresenceResponse where
  presence : String
  last_active_ago : Option Int
deriving DecidableEq

/-- `UserActivityInfo` TypedDict: the persisted ledger. -/
structure UserActivityInfo where
  last_update : Int
  network_to_users : List (String × Dict)
deriving DecidableEq

/-- The remote matrix server consumed by the purger, as pure oracles.
`discovery` is `get_discovery_room` (returns `none` when the room alias does
not resolve or the lookup raises `MatrixError`); `members` is the admin
member-list call keyed by room id; `probe` is `get_presence`; `deactivate`
reports whether the admin deactivation call succeeds. -/
structure Oracles where
  server_name : String
  discovery : String → Option RoomInfo
  members : String → Except Unit (List String)
  probe : String → Except Unit PresenceResponse
  deactivate : String → Bool

/-- `last_active_ago` handling in `_update_user_activity_for_network`:
`response["last_active_ago"] // 1000` when the field is present (Python `//`
is floor division, `Int.fdiv`), else the default `USER_PURGING_THRESHOLD + 1`. -/
def lastActiveAgoOf (resp : PresenceResponse) : Int :=
  match resp.last_active_ago with
  | some millis => Int.fdiv millis 1000
  | none => USER_PURGING_THRESHOLD + 1

/-- The candidate selection of `_update_user_activity_for_network`: accounts
whose stored last-seen time is strictly below `current_time - threshold`. -/
def possible_candidates (user_activity : Dict) (current_time : Int) : List String :=
  (user_activity.filter
    (fun p => decide (p.2 < current_time - USER_PURGING_THRESHOLD))).map Prod.fst

/-- One iteration of the presence loop of `_update_user_activity_for_network`:
on `MatrixError` the account is skipped, otherwise its last-seen time becomes
`current_time - last_active_ago` and it is appended to the due list when still
below the deadline and reported `offline`. -/
def probeStep (probe : String → Except Unit PresenceResponse) (current_time : Int)
    (acc : Dict × List String) (user_id : String) : Dict × List String :=
  match probe user_id with
  | .error _ => acc
  | .ok resp =>
      let last_seen := current_time - lastActiveAgoOf resp
      let activity := aset acc.1 user_id last_seen
      if last_seen < current_time - USER_PURGING_THRESHOLD ∧ resp.presence = "offline" then
        (activity, acc.2 ++ [user_id])
      else
        (activity, acc.2)

/-- `_update_user_activity_for_network`: probe every possible candidate and
return the updated activity dict together with the due-user list. -/
def update_user_activity_for_network (probe : String → Except Unit PresenceResponse)
    (user_activity : Dict) (current_time : Int) : Dict × List String :=
  (possible_candidates user_activity current_time).foldl
    (probeStep probe current_time) (user_activity, [])

/-- Python `str.split(":")` on the character list of a string: split at every
colon, keeping empty segments, with `[""]` for the empty string. -/
def splitOnColon : List Char → List (List Char)
  | [] => [[]]
  | c :: rest =>
      if c = ':' then [] :: splitOnColon rest
      else
        match splitOnColon rest with
        | [] => [[c]]
        | seg :: segs => (c :: seg) :: segs

/-- `member.split(":")[1]` of `_fetch_new_members_for_network`.  Matrix ids have
the shape `@local:server`; an id with no colon would raise `IndexError` in the
source, which cannot happen for the admin member list, so the model lets the
filter drop it. -/
def member_server (member : String) : Option (List Char) :=
  (splitOnColon member.data).get? 1

/-- `member.startswith("@admin")` as a prefix test on the character list. -/
def startsWithAdmin (member : String) : Bool :=
  List.isPrefixOf "@admin".data member.data

/-- The body of the member loop of `_fetch_new_members_for_network`: a member
already known keeps its record, an unknown one is inserted with last-seen
`current_time - threshold - 1`. -/
def fetchStep (current_time : Int) (activity : Dict) (user_id : String) : Dict :=
  if (alookup activity user_id).isSome then activity
  else aset activity user_id (current_time - USER_PURGING_THRESHOLD - 1)

/-- The local-member filter of `_fetch_new_members_for_network`:
`member.split(":")[1] == server_name and not member.startswith("@admin")`. -/
def isLocalMember (server_name member : String) : Bool :=
  decide (member_server member = some server_name.data) && !(startsWithAdmin member)

/-- `_fetch_new_members_for_network`: on `MatrixError` the dict is untouched;
otherwise every member homed on this server and not an `@admin` account that is
not yet known is inserted with last-seen `current_time - threshold - 1`. -/
def fetch_new_members_for_network (members_response : Except Unit (List String))
    (server_name : String) (user_activity : Dict) (current_time : Int) : Dict :=
  match members_response with
  | .error _ => user_activity
  | .ok members =>
      let room_members := members.filter (isLocalMember server_name)
      room_members.foldl (fetchStep current_time) user_activity

/-- The refresh condition of `update_user_activity`:
`last_user_activity_update < current_time - USER_PURGING_THRESHOLD`. -/
def refresh_due (last_update current_time : Int) : Bool :=
  decide (last_update < current_time - USER_PURGING_THRESHOLD)

/-- The body of the per-network loop of `update_user_activity`.  When new
members are being fetched and the discovery room of the network cannot be
found the source hits `continue`: the network contributes no due-user entry
and its activity dict is left untouched for this pass. -/
def processNetworkEntry (o : Oracles) (fetch_new_members : Bool) (current_time : Int)
    (entry : String × Dict) : (String × Dict) × Option (String × List String) :=
  if fetch_new_members then
    match o.discovery entry.1 with
    | none => ((entry.1, entry.2), none)
    | some room =>
        let activity := fetch_new_members_for_network (o.members room.room_id)
          o.server_name entry.2 current_time
        let result := update_user_activity_for_network o.probe activity current_time
        ((entry.1, result.1), some (entry.1, result.2))
  else
    let result := update_user_activity_for_network o.probe entry.2 current_time
    ((entry.1, result.1), some (entry.1, result.2))

/-- `update_user_activity`: decide whether membership must be refreshed (and if
so advance `last_update` to `current_time` before the network loop), then run
the per-network processing.  Returns the updated ledger and the per-network
due-user lists. -/
def update_user_activity (o : Oracles) (info : UserActivityInfo) (current_time : Int) :
    UserActivityInfo × List (String × List String) :=
  let fetch := refresh_due info.last_update current_time
  let processed := info.network_to_users.map (processNetworkEntry o fetch current_time)
  (⟨if fetch then current_time else info.last_update, processed.map Prod.fst⟩,
   processed.filterMap Prod.snd)

/-- `_purge_inactive_users_for_network`.  The source first evaluates
`user_activity[user_id]` for the log line — a `KeyError` (account absent from
the dict) is not caught and aborts the pass, hence `Except.error`.  A
`MatrixError` from the deactivation call is caught and leaves the record in
place; on success the account is popped from the dict. -/
def purge_inactive_users_for_network (deactivate : String → Bool) (user_activity : Dict) :
    List String → Except Unit Dict
  | [] => .ok user_activity
  | user_id :: rest =>
      match alookup user_activity user_id with
      | none => .error ()
      | some _ =>
          if deactivate user_id then
            purge_inactive_users_for_network deactivate (aerase user_activity user_id) rest
          else
            purge_inactive_users_for_network deactivate user_activity rest

/-- `purge_inactive_users`: run the per-network purge for every due-user list,
writing the mutated activity dict back into the network map.  A missing
network key would be an uncaught `KeyError` (`Except.error`). -/
def purge_inactive_users (deactivate : String → Bool) :
    List (String × Dict) → List (String × List String) → Except Unit (List (String × Dict))
  | nets, [] => .ok nets
  | nets, (network_key, due_users) :: rest =>
      match alookup nets network_key with
      | none => .error ()
      | some user_activity =>
          match purge_inactive_users_for_network deactivate user_activity due_users with
          | .error e => .error e
          | .ok updated => purge_inactive_users deactivate (aset nets network_key updated) rest

/-- `run_user_purger`: one full pass — update activity (with optional
membership refresh), then purge the due users. -/
def run_user_purger (o : Oracles) (info : UserActivityInfo) (current_time : Int) :
    Except Unit UserActivityInfo :=
  let updated := update_user_activity o info current_time
  match purge_inactive_users o.deactivate updated.1.network_to_users updated.2 with
  | .error e => .error e
  | .ok nets => .ok ⟨updated.1.last_update, nets⟩

/-- The possible states of the persisted `user_activity.json` as seen by
`purge`: it parses as the ledger document (`valid`); its text is not valid
JSON, raising `JSONDecodeError` which is caught (`malformed`); the file is
missing, raising `FileNotFoundError` which is caught (`absent`); its bytes are
not valid UTF-8, so `read_text()` raises `UnicodeDecodeError`, which no
`except` clause catches (`undecodable`); or it is valid JSON but not a ledger
document (`{}`, `null`, a list, ...), so the parse replaces the default and
the network bootstrap's `global_user_activity["network_to_users"]` subscript
raises an uncaught `KeyError`/`TypeError` (`wrongShape`). -/
inductive PersistedLedger where
  | valid (info : UserActivityInfo)
  | malformed
  | absent
  | undecodable
  | wrongShape
deriving DecidableEq

/-- The fallback ledger `purge` starts from:
`last_update = now - USER_PURGING_THRESHOLD - 1` and no networks. -/
def emptyActivity (current_time : Int) : UserActivityInfo :=
  ⟨current_time - USER_PURGING_THRESHOLD - 1, []⟩

/-- The ledger-loading logic of `purge` up to the network bootstrap: a valid
document is used as is; a malformed or absent file falls back to the empty
ledger; invalid UTF-8 and valid-JSON non-ledger content escape as uncaught
exceptions (the latter only at the first subscript of the document, but in
either case before any network is processed). -/
def load_global_user_activity (persisted : PersistedLedger) (current_time : Int) :
    Except Unit UserActivityInfo :=
  match persisted with
  | .valid info => .ok info
  | .malformed => .ok (emptyActivity current_time)
  | .absent => .ok (emptyActivity current_time)
  | .undecodable => .error ()
  | .wrongShape => .error ()

/-- One step of the "check if there are new networks to add" loop of `purge`:
a known network keeps its segment, a new one gets an empty dict. -/
def ensureStep (nets : List (String × Dict)) (network_key : String) :
    List (String × Dict) :=
  if (alookup nets network_key).isSome then nets else aset nets network_key []

/-- The "check if there are new networks to add" loop of `purge`: give every
known network an (empty) activity dict if it has none yet. -/
def ensure_networks (network_values : List String) (info : UserActivityInfo) :
    UserActivityInfo :=
  ⟨info.last_update, network_values.foldl ensureStep info.network_to_users⟩

/-! ### Association-list lemmas -/

theorem alookup_aset_self {α : Type} (d : List (String × α)) (k : String) (v : α) :
    alookup (aset d k v) k = some v := by
  induction d with
  | nil => simp [aset, alookup]
  | cons p rest ih =>
      by_cases h : p.1 = k
      · simp [aset, h, alookup]
      · simp [aset, h, alookup, ih]

theorem alookup_aset_ne {α : Type} (d : List (String × α)) {k k' : String} (v : α)
    (h : k ≠ k') : alookup (aset d k v) k' = alookup d k' := by
  induction d with
  | nil => simp [aset, alookup, h]
  | cons p rest ih =>
      by_cases hp : p.1 = k
      · simp [aset, hp, alookup, h]
      · simp only [aset, hp, if_false, alookup, ih]

theorem alookup_aerase_ne {α : Type} (d : List (String × α)) {k k' : String}
    (h : k ≠ k') : alookup (aerase d k) k' = alookup d k' := by
  induction d with
  | nil => simp [aerase]
  | cons p rest ih =>
      by_cases hp : p.1 = k
      · simp [aerase, hp, alookup, h]
      · simp only [aerase, hp, if_false, alookup, ih]

theorem alookup_isSome_iff {α : Type} (d : List (String × α)) (k : String) :
    (alookup d k).isSome ↔ k ∈ akeys d := by
  induction d with
  | nil => simp [alookup, akeys]
  | cons p rest ih =>
      by_cases hp : p.1 = k
      · simp [alookup, akeys, hp]
      · simp [alookup, akeys, hp, ih, Ne.symm hp]

theorem akeys_aset_of_isSome {α : Type} (d : List (String × α)) (k : String) (v : α)
    (h : (alookup d k).isSome) : akeys (aset d k v) = akeys d := by
  induction d with
  | nil => simp [alookup] at h
  | cons p rest ih =>
      by_cases hp : p.1 = k
      · simp [aset, hp, akeys]
      · simp only [alookup, hp, if_false] at h
        have hrest := ih h
        simp only [akeys] at hrest
        simp [aset, hp, akeys, hrest]

theorem akeys_aset_of_isNone {α : Type} (d : List (String × α)) (k : String) (v : α)
    (h : alookup d k = none) : akeys (aset d k v) = akeys d ++ [k] := by
  induction d with
  | nil => simp [aset, akeys]
  | cons p rest ih =>
      by_cases hp : p.1 = k
      · simp [alookup, hp] at h
      · simp only [alookup, hp, if_false] at h
        have hrest := ih h
        simp only [akeys] at hrest
        simp [aset, hp, akeys, hrest]

theorem akeys_aset_nodup {α : Type} (d : List (String × α)) (k : String) (v : α)
    (h : (akeys d).Nodup) : (akeys (aset d k v)).Nodup := by
  cases hk : alookup d k with
  | some w => rw [akeys_aset_of_isSome d k v (by simp [hk])]; exact h
  | none =>
      rw [akeys_aset_of_isNone d k v hk]
      have hnot : k ∉ akeys d := by
        intro hmem
        rw [← alookup_isSome_iff] at hmem
        simp [hk] at hmem
      simp [List.nodup_append, h, hnot]

theorem alookup_eq_some_of_mem_nodup {α : Type} {d : List (String × α)} {k : String} {v : α}
    (hnd : (akeys d).Nodup) (hm : (k, v) ∈ d) : alookup d k = some v := by
  induction d with
  | nil => simp at hm
  | cons p rest ih =>
      simp only [akeys, List.map_cons, List.nodup_cons] at hnd
      rcases List.mem_cons.mp hm with hh | ht
      · simp [alookup, ← hh]
      · by_cases hp : p.1 = k
        · exfalso
          exact hnd.1 (hp ▸ (List.mem_map.mpr ⟨(k, v), ht, rfl⟩))
        · simpa [alookup, hp] using ih hnd.2 ht

theorem mem_of_alookup_eq_some {α : Type} {d : List (String × α)} {k : String} {v : α}
    (h : alookup d k = some v) : (k, v) ∈ d := by
  induction d with
  | nil => simp [alookup] at h
  | cons p rest ih =>
      by_cases hp : p.1 = k
      · simp only [alookup, hp, if_true, Option.some.injEq] at h
        have hpkv : p = (k, v) := by
          calc p = (p.1, p.2) := rfl
            _ = (k, v) := by rw [hp, h]
        subst hpkv
        exact List.mem_cons_self _ _
      · simp only [alookup, hp, if_false] at h
        exact List.mem_cons_of_mem _ (ih h)

theorem mem_aset_elim {α : Type} {d : List (String × α)} {k : String} {v : α}
    {e : String × α} (h : e ∈ aset d k v) : e ∈ d ∨ e = (k, v) := by
  induction d with
  | nil => simpa [aset] using h
  | cons p rest ih =>
      by_cases hp : p.1 = k
      · simp only [aset, hp, if_true] at h
        rcases List.mem_cons.mp h with hh | ht
        · right; exact hh
        · left; exact List.mem_cons_of_mem _ ht
      · simp only [aset, hp, if_false] at h
        rcases List.mem_cons.mp h with hh | ht
        · left; exact hh ▸ List.mem_cons_self _ _
        · rcases ih ht with h1 | h2
          · left; exact List.mem_cons_of_mem _ h1
          · right; exact h2

/-! ### Presence-probe loop lemmas -/

theorem probeStep_error {probe : String → Except Unit PresenceResponse} {t : Int}
    {acc : Dict × List String} {u : String} {e : Unit} (hp : probe u = .error e) :
    probeStep probe t acc u = acc := by
  simp [probeStep, hp]

theorem probeStep_ok {probe : String → Except Unit PresenceResponse} {t : Int}
    {acc : Dict × List String} {u : String} {resp : PresenceResponse}
    (hp : probe u = .ok resp) :
    probeStep probe t acc u =
      (aset acc.1 u (t - lastActiveAgoOf resp),
       if t - lastActiveAgoOf resp < t - USER_PURGING_THRESHOLD ∧ resp.presence = "offline"
       then acc.2 ++ [u] else acc.2) := by
  simp only [probeStep, hp]
  split <;> rfl

theorem probeFold_lookup_of_not_mem (probe : String → Except Unit PresenceResponse)
    (t : Int) (l : List String) (d : Dict) (acc : List String) (u : String) (hu : u ∉ l) :
    alookup (l.foldl (probeStep probe t) (d, acc)).1 u = alookup d u := by
  induction l generalizing d acc with
  | nil => rfl
  | cons h tl ih =>
      have hne : u ≠ h := fun hc => hu (by simp [hc])
      have htl : u ∉ tl := fun hc => hu (List.mem_cons_of_mem _ hc)
      rw [List.foldl_cons]
      cases hp : probe h with
      | error e => rw [probeStep_error hp]; exact ih d acc htl
      | ok resp =>
          rw [probeStep_ok hp]
          rw [ih _ _ htl]
          exact alookup_aset_ne d _ (Ne.symm hne)

theorem probeFold_due_append (probe : String → Except Unit PresenceResponse)
    (t : Int) (l : List String) (d : Dict) (acc : List String) :
    ∃ extra, (l.foldl (probeStep probe t) (d, acc)).2 = acc ++ extra ∧
      ∀ u ∈ extra, u ∈ l ∧ ∃ resp, probe u = .ok resp ∧ resp.presence = "offline" ∧
        t - lastActiveAgoOf resp < t - USER_PURGING_THRESHOLD := by
  induction l generalizing d acc with
  | nil => exact ⟨[], by simp⟩
  | cons h tl ih =>
      rw [List.foldl_cons]
      cases hp : probe h with
      | error e =>
          rw [probeStep_error hp]
          obtain ⟨extra, he, hprop⟩ := ih d acc
          exact ⟨extra, he, fun u hu =>
            ⟨List.mem_cons_of_mem _ (hprop u hu).1, (hprop u hu).2⟩⟩
      | ok resp =>
          rw [probeStep_ok hp]
          by_cases hc : t - lastActiveAgoOf resp < t - USER_PURGING_THRESHOLD ∧
              resp.presence = "offline"
          · rw [if_pos hc]
            obtain ⟨extra, he, hprop⟩ := ih (aset d h (t - lastActiveAgoOf resp)) (acc ++ [h])
            refine ⟨h :: extra, by rw [he]; simp, ?_⟩
            intro u hu
            rcases List.mem_cons.mp hu with hh | ht
            · subst hh
              exact ⟨List.mem_cons_self _ _, resp, hp, hc.2, hc.1⟩
            · exact ⟨List.mem_cons_of_mem _ (hprop u ht).1, (hprop u ht).2⟩
          · rw [if_neg hc]
            obtain ⟨extra, he, hprop⟩ := ih (aset d h (t - lastActiveAgoOf resp)) acc
            exact ⟨extra, he, fun u hu =>
              ⟨List.mem_cons_of_mem _ (hprop u hu).1, (hprop u hu).2⟩⟩

theorem probeFold_char_ok (probe : String → Except Unit PresenceResponse) (t : Int)
    {l : List String} (hnd : l.Nodup) {u : String} (hu : u ∈ l)
    {resp : PresenceResponse} (hp : probe u = .ok resp) (d : Dict) (acc : List String) :
    alookup (l.foldl (probeStep probe t) (d, acc)).1 u = some (t - lastActiveAgoOf resp) ∧
    (u ∈ (l.foldl (probeStep probe t) (d, acc)).2 ↔
      u ∈ acc ∨ (t - lastActiveAgoOf resp < t - USER_PURGING_THRESHOLD ∧
        resp.presence = "offline")) := by
  induction l generalizing d acc with
  | nil => simp at hu
  | cons h tl ih =>
      rw [List.nodup_cons] at hnd
      rw [List.foldl_cons]
      by_cases heq : u = h
      · subst heq
        have hutl : u ∉ tl := hnd.1
        rw [probeStep_ok hp]
        constructor
        · rw [probeFold_lookup_of_not_mem probe t tl _ _ u hutl]
          exact alookup_aset_self d u _
        · obtain ⟨extra, he, hprop⟩ := probeFold_due_append probe t tl
            (aset d u (t - lastActiveAgoOf resp)) _
          rw [he]
          have huextra : u ∉ extra := fun hc => hutl (hprop u hc).1
          by_cases hc : t - lastActiveAgoOf resp < t - USER_PURGING_THRESHOLD ∧
              resp.presence = "offline"
          · rw [if_pos hc]
            constructor
            · intro _
              exact Or.inr hc
            · intro _
              exact List.mem_append.mpr
                (Or.inl (List.mem_append.mpr (Or.inr (List.mem_singleton.mpr rfl))))
          · rw [if_neg hc]
            constructor
            · intro hmem
              rcases List.mem_append.mp hmem with h1 | h2
              · exact Or.inl h1
              · exact absurd h2 huextra
            · intro hmem
              rcases hmem with h1 | h2
              · exact List.mem_append.mpr (Or.inl h1)
              · exact absurd h2 hc
      · have hutl : u ∈ tl := by
          rcases List.mem_cons.mp hu with hh | ht
          · exact absurd hh heq
          · exact ht
        cases hp2 : probe h with
        | error e =>
            rw [probeStep_error hp2]
            exact ih hnd.2 hutl d acc
        | ok resp2 =>
            rw [probeStep_ok hp2]
            by_cases hc2 : t - lastActiveAgoOf resp2 < t - USER_PURGING_THRESHOLD ∧
                resp2.presence = "offline"
            · rw [if_pos hc2]
              obtain ⟨h1, h2⟩ := ih hnd.2 hutl (aset d h (t - lastActiveAgoOf resp2)) (acc ++ [h])
              refine ⟨h1, ?_⟩
              rw [h2]
              simp [heq]
            · rw [if_neg hc2]
              exact ih hnd.2 hutl (aset d h (t - lastActiveAgoOf resp2)) acc

theorem probeFold_char_error (probe : String → Except Unit PresenceResponse) (t : Int)
    {l : List String} (hnd : l.Nodup) {u : String} (hu : u ∈ l)
    {e : Unit} (hp : probe u = .error e) (d : Dict) (acc : List String) :
    alookup (l.foldl (probeStep probe t) (d, acc)).1 u = alookup d u ∧
    (u ∈ (l.foldl (probeStep probe t) (d, acc)).2 ↔ u ∈ acc) := by
  induction l generalizing d acc with
  | nil => simp at hu
  | cons h tl ih =>
      rw [List.nodup_cons] at hnd
      rw [List.foldl_cons]
      by_cases heq : u = h
      · subst heq
        have hutl : u ∉ tl := hnd.1
        rw [probeStep_error hp]
        constructor
        · exact probeFold_lookup_of_not_mem probe t tl d acc u hutl
        · obtain ⟨extra, he, hprop⟩ := probeFold_due_append probe t tl d acc
          rw [he]
          have huextra : u ∉ extra := fun hc => hutl (hprop u hc).1
          simp [huextra]
      · have hutl : u ∈ tl := by
          rcases List.mem_cons.mp hu with hh | ht
          · exact absurd hh heq
          · exact ht
        cases hp2 : probe h with
        | error e2 =>
            rw [probeStep_error hp2]
            exact ih hnd.2 hutl d acc
        | ok resp2 =>
            rw [probeStep_ok hp2]
            by_cases hc2 : t - lastActiveAgoOf resp2 < t - USER_PURGING_THRESHOLD ∧
                resp2.presence = "offline"
            · rw [if_pos hc2]
              obtain ⟨h1, h2⟩ := ih hnd.2 hutl (aset d h (t - lastActiveAgoOf resp2)) (acc ++ [h])
              have h1' : alookup (aset d h (t - lastActiveAgoOf resp2)) u = alookup d u :=
                alookup_aset_ne d _ (Ne.symm heq)
              refine ⟨h1.trans h1', ?_⟩
              rw [h2]
              simp [heq]
            · rw [if_neg hc2]
              obtain ⟨h1, h2⟩ := ih hnd.2 hutl (aset d h (t - lastActiveAgoOf resp2)) acc
              have h1' : alookup (aset d h (t - lastActiveAgoOf resp2)) u = alookup d u :=
                alookup_aset_ne d _ (Ne.symm heq)
              exact ⟨h1.trans h1', h2⟩

theorem probeFold_keys_nodup (probe : String → Except Unit PresenceResponse) (t : Int)
    (l : List String) (d : Dict) (acc : List String) (h : (akeys d).Nodup) :
    (akeys (l.foldl (probeStep probe t) (d, acc)).1).Nodup := by
  induction l generalizing d acc with
  | nil => exact h
  | cons hd tl ih =>
      rw [List.foldl_cons]
      cases hp : probe hd with
      | error e => rw [probeStep_error hp]; exact ih d acc h
      | ok resp =>
          rw [probeStep_ok hp]
          exact ih _ _ (akeys_aset_nodup d hd _ h)

theorem probeFold_due_nodup (probe : String → Except Unit PresenceResponse) (t : Int)
    (l : List String) (d : Dict) (acc : List String) (hl : l.Nodup)
    (hacc : acc.Nodup) (hdisj : ∀ u ∈ acc, u ∉ l) :
    (l.foldl (probeStep probe t) (d, acc)).2.Nodup := by
  induction l generalizing d acc with
  | nil => exact hacc
  | cons hd tl ih =>
      rw [List.nodup_cons] at hl
      rw [List.foldl_cons]
      cases hp : probe hd with
      | error e =>
          rw [probeStep_error hp]
          exact ih d acc hl.2 hacc (fun u hu => fun hc =>
            hdisj u hu (List.mem_cons_of_mem _ hc))
      | ok resp =>
          rw [probeStep_ok hp]
          by_cases hc : t - lastActiveAgoOf resp < t - USER_PURGING_THRESHOLD ∧
              resp.presence = "offline"
          · rw [if_pos hc]
            have hdn : hd ∉ acc := fun hmem => hdisj hd hmem (List.mem_cons_self _ _)
            refine ih _ _ hl.2 ?_ ?_
            · simp [List.nodup_append, hacc, hdn]
            · intro u hu
              rcases List.mem_append.mp hu with h1 | h2
              · exact fun hctl => hdisj u h1 (List.mem_cons_of_mem _ hctl)
              · simp at h2
                subst h2
                exact hl.1
          · rw [if_neg hc]
            exact ih _ _ hl.2 hacc (fun u hu => fun hctl =>
              hdisj u hu (List.mem_cons_of_mem _ hctl))

/-! ### Candidate-selection lemmas -/

theorem mem_possible_candidates {ua : Dict} {t : Int} {u : String} :
    u ∈ possible_candidates ua t ↔
      ∃ v, (u, v) ∈ ua ∧ v < t - USER_PURGING_THRESHOLD := by
  constructor
  · intro hu
    obtain ⟨p, hp, hpe⟩ := List.mem_map.mp hu
    have := List.mem_filter.mp hp
    exact ⟨p.2, by rw [← hpe]; exact ⟨by simpa using this.1, by simpa using this.2⟩⟩
  · rintro ⟨v, hm, hv⟩
    exact List.mem_map.mpr ⟨(u, v), List.mem_filter.mpr ⟨hm, by simpa using hv⟩, rfl⟩

theorem possible_candidates_nodup {ua : Dict} {t : Int} (h : (akeys ua).Nodup) :
    (possible_candidates ua t).Nodup := by
  have hs : (ua.filter
      (fun p => decide (p.2 < t - USER_PURGING_THRESHOLD))).Sublist ua :=
    List.filter_sublist _
  exact List.Nodup.sublist (hs.map Prod.fst) h

theorem mem_possible_candidates_of_nodup {ua : Dict} {t : Int} {u : String}
    (hnd : (akeys ua).Nodup) :
    u ∈ possible_candidates ua t ↔
      ∃ v, alookup ua u = some v ∧ v < t - USER_PURGING_THRESHOLD := by
  rw [mem_possible_candidates]
  constructor
  · rintro ⟨v, hm, hv⟩
    exact ⟨v, alookup_eq_some_of_mem_nodup hnd hm, hv⟩
  · rintro ⟨v, hm, hv⟩
    exact ⟨v, mem_of_alookup_eq_some hm, hv⟩

/-! ### Membership-sync lemmas -/

theorem fetchStep_present {t : Int} {activity : Dict} {u : String}
    (h : (alookup activity u).isSome) : fetchStep t activity u = activity := by
  simp [fetchStep, h]

theorem fetchStep_absent {t : Int} {activity : Dict} {u : String}
    (h : alookup activity u = none) :
    fetchStep t activity u = aset activity u (t - USER_PURGING_THRESHOLD - 1) := by
  simp [fetchStep, h]

theorem fetchFold_lookup_of_some (t : Int) (l : List String) (activity : Dict)
    {m : String} {w : Int} (h : alookup activity m = some w) :
    alookup (l.foldl (fetchStep t) activity) m = some w := by
  induction l generalizing activity with
  | nil => exact h
  | cons hd tl ih =>
      rw [List.foldl_cons]
      by_cases hp : (alookup activity hd).isSome
      · rw [fetchStep_present hp]
        exact ih activity h
      · rw [fetchStep_absent (Option.not_isSome_iff_eq_none.mp hp)]
        have hne : hd ≠ m := by
          intro hc
          subst hc
          simp [h] at hp
        exact ih _ (by rw [alookup_aset_ne activity _ hne]; exact h)

theorem fetchFold_isSome_mono (t : Int) (l : List String) (activity : Dict)
    {m : String} (h : (alookup activity m).isSome) :
    (alookup (l.foldl (fetchStep t) activity) m).isSome := by
  obtain ⟨w, hw⟩ := Option.isSome_iff_exists.mp h
  rw [fetchFold_lookup_of_some t l activity hw]
  rfl

theorem fetchFold_inserts (t : Int) (l : List String) (activity : Dict)
    {m : String} (hm : m ∈ l) (h : alookup activity m = none) :
    alookup (l.foldl (fetchStep t) activity) m
      = some (t - USER_PURGING_THRESHOLD - 1) := by
  induction l generalizing activity with
  | nil => simp at hm
  | cons hd tl ih =>
      rw [List.foldl_cons]
      by_cases heq : hd = m
      · subst heq
        rw [fetchStep_absent h]
        exact fetchFold_lookup_of_some t tl _ (alookup_aset_self activity hd _)
      · have hmtl : m ∈ tl := by
          rcases List.mem_cons.mp hm with hh | ht
          · exact absurd hh.symm heq
          · exact ht
        by_cases hp : (alookup activity hd).isSome
        · rw [fetchStep_present hp]
          exact ih _ hmtl h
        · rw [fetchStep_absent (Option.not_isSome_iff_eq_none.mp hp)]
          exact ih _ hmtl (by rw [alookup_aset_ne activity _ heq]; exact h)

theorem fetchFold_keys_nodup (t : Int) (l : List String) (activity : Dict)
    (h : (akeys activity).Nodup) :
    (akeys (l.foldl (fetchStep t) activity)).Nodup := by
  induction l generalizing activity with
  | nil => exact h
  | cons hd tl ih =>
      rw [List.foldl_cons]
      by_cases hp : (alookup activity hd).isSome
      · rw [fetchStep_present hp]
        exact ih activity h
      · rw [fetchStep_absent (Option.not_isSome_iff_eq_none.mp hp)]
        exact ih _ (akeys_aset_nodup activity hd _ h)

theorem fetchFold_all_present (t : Int) (l : List String) (activity : Dict)
    {m : String} (hm : m ∈ l) :
    (alookup (l.foldl (fetchStep t) activity) m).isSome := by
  cases h : alookup activity m with
  | some w => exact fetchFold_isSome_mono t l activity (by simp [h])
  | none => rw [fetchFold_inserts t l activity hm h]; rfl

theorem fetchFold_fixed (t : Int) (l : List String) (activity : Dict)
    (h : ∀ u ∈ l, (alookup activity u).isSome) :
    l.foldl (fetchStep t) activity = activity := by
  induction l with
  | nil => rfl
  | cons hd tl ih =>
      rw [List.foldl_cons]
      rw [fetchStep_present (h hd (List.mem_cons_self _ _))]
      exact ih (fun u hu => h u (List.mem_cons_of_mem _ hu))

theorem fetch_new_members_keys_nodup (resp : Except Unit (List String)) (s : String)
    (ua : Dict) (t : Int) (h : (akeys ua).Nodup) :
    (akeys (fetch_new_members_for_network resp s ua t)).Nodup := by
  cases resp with
  | error e => exact h
  | ok ms => exact fetchFold_keys_nodup t _ ua h

/-! ### Orchestrator lemmas -/

theorem processNetworkEntry_true_none (o : Oracles) (t : Int) (e : String × Dict)
    (hd : o.discovery e.1 = none) :
    processNetworkEntry o true t e = ((e.1, e.2), none) := by
  simp [processNetworkEntry, hd]

theorem processNetworkEntry_true_some (o : Oracles) (t : Int) (e : String × Dict)
    (room : RoomInfo) (hd : o.discovery e.1 = some room) :
    processNetworkEntry o true t e =
      ((e.1, (update_user_activity_for_network o.probe
          (fetch_new_members_for_network (o.members room.room_id) o.server_name e.2 t) t).1),
       some (e.1, (update_user_activity_for_network o.probe
          (fetch_new_members_for_network (o.members room.room_id) o.server_name e.2 t) t).2)) := by
  simp [processNetworkEntry, hd]

theorem processNetworkEntry_false (o : Oracles) (t : Int) (e : String × Dict) :
    processNetworkEntry o false t e =
      ((e.1, (update_user_activity_for_network o.probe e.2 t).1),
       some (e.1, (update_user_activity_for_network o.probe e.2 t).2)) := by
  simp [processNetworkEntry]

theorem processNetworkEntry_fst_key (o : Oracles) (f : Bool) (t : Int) (e : String × Dict) :
    ((processNetworkEntry o f t e).1).1 = e.1 := by
  cases f with
  | false => rw [processNetworkEntry_false]
  | true =>
      cases hd : o.discovery e.1 with
      | none => rw [processNetworkEntry_true_none o t e hd]
      | some room => rw [processNetworkEntry_true_some o t e room hd]

theorem processNetworkEntry_snd_key (o : Oracles) (f : Bool) (t : Int) (e : String × Dict)
    {pr : String × List String} (h : (processNetworkEntry o f t e).2 = some pr) :
    pr.1 = e.1 := by
  cases f with
  | false =>
      rw [processNetworkEntry_false] at h
      cases h
      rfl
  | true =>
      cases hd : o.discovery e.1 with
      | none =>
          rw [processNetworkEntry_true_none o t e hd] at h
          cases h
      | some room =>
          rw [processNetworkEntry_true_some o t e room hd] at h
          cases h
          rfl

theorem update_user_activity_last_update (o : Oracles) (info : UserActivityInfo) (t : Int) :
    (update_user_activity o info t).1.last_update =
      if refresh_due info.last_update t then t else info.last_update := rfl

theorem update_user_activity_networks (o : Oracles) (info : UserActivityInfo) (t : Int) :
    (update_user_activity o info t).1.network_to_users =
      info.network_to_users.map
        (fun e => (processNetworkEntry o (refresh_due info.last_update t) t e).1) := by
  simp [update_user_activity]

theorem update_user_activity_dues (o : Oracles) (info : UserActivityInfo) (t : Int) :
    (update_user_activity o info t).2 =
      (info.network_to_users.map
        (processNetworkEntry o (refresh_due info.last_update t) t)).filterMap Prod.snd := rfl

theorem update_user_activity_network_keys (o : Oracles) (info : UserActivityInfo) (t : Int) :
    akeys (update_user_activity o info t).1.network_to_users
      = akeys info.network_to_users := by
  rw [update_user_activity_networks]
  unfold akeys
  rw [List.map_map]
  exact List.map_congr_left (fun e _ => processNetworkEntry_fst_key o _ t e)

theorem dues_keys_sublist (o : Oracles) (f : Bool) (t : Int) (l : List (String × Dict)) :
    (((l.map (processNetworkEntry o f t)).filterMap Prod.snd).map Prod.fst).Sublist
      (l.map Prod.fst) := by
  induction l with
  | nil => simp
  | cons e tl ih =>
      rw [List.map_cons, List.filterMap_cons]
      cases h2 : (processNetworkEntry o f t e).2 with
      | none =>
          exact ih.trans (List.sublist_cons_self _ _)
      | some pr =>
          rw [List.map_cons]
          rw [processNetworkEntry_snd_key o f t e h2]
          exact ih.cons₂ e.1

theorem mem_dues_elim (o : Oracles) (f : Bool) (t : Int) (l : List (String × Dict))
    {pr : String × List String}
    (h : pr ∈ (l.map (processNetworkEntry o f t)).filterMap Prod.snd) :
    ∃ e ∈ l, (processNetworkEntry o f t e).2 = some pr ∧ e.1 = pr.1 ∧
      (processNetworkEntry o f t e).1 ∈ l.map
        (fun e2 => (processNetworkEntry o f t e2).1) := by
  obtain ⟨q, hq, hq2⟩ := List.mem_filterMap.mp h
  obtain ⟨e, he, heq⟩ := List.mem_map.mp hq
  refine ⟨e, he, by rw [heq]; exact hq2, ?_, ?_⟩
  · have := processNetworkEntry_snd_key o f t e (by rw [heq]; exact hq2)
    exact this.symm
  · exact List.mem_map.mpr ⟨e, he, rfl⟩

/-! ### Whole-pass safety: a fresh pass never hits an uncaught KeyError -/

theorem update_network_due_nodup (probe : String → Except Unit PresenceResponse)
    (ua : Dict) (t : Int) (h : (akeys ua).Nodup) :
    (update_user_activity_for_network probe ua t).2.Nodup :=
  probeFold_due_nodup probe t _ ua [] (possible_candidates_nodup h)
    List.nodup_nil (by simp)

theorem update_network_due_present (probe : String → Except Unit PresenceResponse)
    (ua : Dict) (t : Int) (h : (akeys ua).Nodup) :
    ∀ u ∈ (update_user_activity_for_network probe ua t).2,
      (alookup (update_user_activity_for_network probe ua t).1 u).isSome := by
  intro u hu
  obtain ⟨extra, he, hprop⟩ := probeFold_due_append probe t
    (possible_candidates ua t) ua []
  rw [update_user_activity_for_network] at hu
  rw [he] at hu
  simp only [List.nil_append] at hu
  obtain ⟨hcand, resp, hok, _, _⟩ := hprop u hu
  have := (probeFold_char_ok probe t (possible_candidates_nodup h) hcand hok ua []).1
  rw [update_user_activity_for_network, this]
  rfl

theorem update_network_keys_nodup (probe : String → Except Unit PresenceResponse)
    (ua : Dict) (t : Int) (h : (akeys ua).Nodup) :
    (akeys (update_user_activity_for_network probe ua t).1).Nodup :=
  probeFold_keys_nodup probe t _ ua [] h

theorem processNetworkEntry_due_ok (o : Oracles) (f : Bool) (t : Int) (e : String × Dict)
    (hs : (akeys e.2).Nodup) {pr : String × List String}
    (h : (processNetworkEntry o f t e).2 = some pr) :
    pr.2.Nodup ∧
      ∀ u ∈ pr.2, (alookup ((processNetworkEntry o f t e).1).2 u).isSome := by
  cases f with
  | false =>
      rw [processNetworkEntry_false] at h ⊢
      cases h
      exact ⟨update_network_due_nodup o.probe e.2 t hs,
        update_network_due_present o.probe e.2 t hs⟩
  | true =>
      cases hd : o.discovery e.1 with
      | none =>
          rw [processNetworkEntry_true_none o t e hd] at h
          cases h
      | some room =>
          rw [processNetworkEntry_true_some o t e room hd] at h ⊢
          cases h
          have hs1 : (akeys (fetch_new_members_for_network (o.members room.room_id)
              o.server_name e.2 t)).Nodup :=
            fetch_new_members_keys_nodup _ _ e.2 t hs
          exact ⟨update_network_due_nodup o.probe _ t hs1,
            update_network_due_present o.probe _ t hs1⟩

theorem purge_network_ok (deactivate : String → Bool) (ua : Dict) (due : List String)
    (hnd : due.Nodup) (hall : ∀ u ∈ due, (alookup ua u).isSome) :
    ∃ ua2, purge_inactive_users_for_network deactivate ua due = .ok ua2 := by
  induction due generalizing ua with
  | nil => exact ⟨ua, rfl⟩
  | cons u rest ih =>
      rw [List.nodup_cons] at hnd
      obtain ⟨w, hw⟩ := Option.isSome_iff_exists.mp (hall u (List.mem_cons_self _ _))
      by_cases hdct : deactivate u
      · have hrest : ∀ v ∈ rest, (alookup (aerase ua u) v).isSome := by
          intro v hv
          have hne : u ≠ v := fun hc => hnd.1 (hc ▸ hv)
          rw [alookup_aerase_ne ua hne]
          exact hall v (List.mem_cons_of_mem _ hv)
        obtain ⟨ua2, hua2⟩ := ih (aerase ua u) hnd.2 hrest
        exact ⟨ua2, by simp [purge_inactive_users_for_network, hw, hdct, hua2]⟩
      · obtain ⟨ua2, hua2⟩ := ih ua hnd.2
          (fun v hv => hall v (List.mem_cons_of_mem _ hv))
        exact ⟨ua2, by simp [purge_inactive_users_for_network, hw, hdct, hua2]⟩

theorem purge_users_ok (deactivate : String → Bool) (dues : List (String × List String))
    (nets : List (String × Dict)) (hkeys : (dues.map Prod.fst).Nodup)
    (hprop : ∀ pr ∈ dues, ∃ ua, alookup nets pr.1 = some ua ∧ pr.2.Nodup ∧
      ∀ u ∈ pr.2, (alookup ua u).isSome) :
    ∃ out, purge_inactive_users deactivate nets dues = .ok out := by
  induction dues generalizing nets with
  | nil => exact ⟨nets, rfl⟩
  | cons pr rest ih =>
      rw [List.map_cons, List.nodup_cons] at hkeys
      obtain ⟨ua, hua, hnd, hall⟩ := hprop pr (List.mem_cons_self _ _)
      obtain ⟨ua2, hua2⟩ := purge_network_ok deactivate ua pr.2 hnd hall
      have hrest : ∀ q ∈ rest, ∃ ua3, alookup (aset nets pr.1 ua2) q.1 = some ua3 ∧
          q.2.Nodup ∧ ∀ u ∈ q.2, (alookup ua3 u).isSome := by
        intro q hq
        have hne : pr.1 ≠ q.1 := by
          intro hc
          exact hkeys.1 (hc ▸ List.mem_map.mpr ⟨q, hq, rfl⟩)
        obtain ⟨ua3, h3, h4, h5⟩ := hprop q (List.mem_cons_of_mem _ hq)
        exact ⟨ua3, by rw [alookup_aset_ne nets _ hne]; exact h3, h4, h5⟩
      obtain ⟨out, hout⟩ := ih (aset nets pr.1 ua2) hkeys.2 hrest
      refine ⟨out, ?_⟩
      have hpr : pr = (pr.1, pr.2) := rfl
      rw [hpr]
      simp [purge_inactive_users, hua, hua2, hout]

theorem run_user_purger_ok (o : Oracles) (info : UserActivityInfo) (t : Int)
    (hk : (akeys info.network_to_users).Nodup)
    (hseg : ∀ e ∈ info.network_to_users, (akeys e.2).Nodup) :
    ∃ out, run_user_purger o info t = .ok out := by
  have hdues := update_user_activity_dues o info t
  have hnets := update_user_activity_networks o info t
  have hkeys1 : (akeys (update_user_activity o info t).1.network_to_users).Nodup := by
    rw [update_user_activity_network_keys]; exact hk
  have hdk : (((update_user_activity o info t).2).map Prod.fst).Nodup := by
    rw [hdues]
    exact List.Nodup.sublist
      (dues_keys_sublist o (refresh_due info.last_update t) t info.network_to_users) hk
  have hprop : ∀ pr ∈ (update_user_activity o info t).2,
      ∃ ua, alookup (update_user_activity o info t).1.network_to_users pr.1 = some ua ∧
        pr.2.Nodup ∧ ∀ u ∈ pr.2, (alookup ua u).isSome := by
    intro pr hpr
    rw [hdues] at hpr
    obtain ⟨e, he, hsnd, hkey, hmem⟩ :=
      mem_dues_elim o (refresh_due info.last_update t) t info.network_to_users hpr
    have hdue := processNetworkEntry_due_ok o (refresh_due info.last_update t) t e
      (hseg e he) hsnd
    refine ⟨((processNetworkEntry o (refresh_due info.last_update t) t e).1).2, ?_,
      hdue.1, hdue.2⟩
    have hm2 : ((processNetworkEntry o (refresh_due info.last_update t) t e).1)
        ∈ (update_user_activity o info t).1.network_to_users := by
      rw [hnets]; exact hmem
    have hk2 := processNetworkEntry_fst_key o (refresh_due info.last_update t) t e
    have : (pr.1, ((processNetworkEntry o (refresh_due info.last_update t) t e).1).2)
        ∈ (update_user_activity o info t).1.network_to_users := by
      have hpair : (processNetworkEntry o (refresh_due info.last_update t) t e).1
          = (pr.1, ((processNetworkEntry o (refresh_due info.last_update t) t e).1).2) := by
        rw [Prod.ext_iff]
        exact ⟨by rw [hk2, hkey], rfl⟩
      rw [← hpair]
      exact hm2
    exact alookup_eq_some_of_mem_nodup hkeys1 this
  obtain ⟨out, hout⟩ := purge_users_ok o.deactivate (update_user_activity o info t).2
    (update_user_activity o info t).1.network_to_users hdk hprop
  exact ⟨⟨(update_user_activity o info t).1.last_update, out⟩, by
    simp [run_user_purger, hout]⟩

/-! ### Ledger loading and network bootstrap lemmas -/

theorem ensureFold_keys_nodup (ns : List String) (nets : List (String × Dict))
    (h : (akeys nets).Nodup) : (akeys (ns.foldl ensureStep nets)).Nodup := by
  induction ns generalizing nets with
  | nil => exact h
  | cons nk tl ih =>
      rw [List.foldl_cons]
      by_cases hp : (alookup nets nk).isSome
      · rw [ensureStep, if_pos hp]
        exact ih nets h
      · rw [ensureStep, if_neg hp]
        exact ih _ (akeys_aset_nodup nets nk _ h)

theorem ensureFold_segments_empty (ns : List String) (nets : List (String × Dict))
    (h : ∀ e ∈ nets, e.2 = ([] : Dict)) :
    ∀ e ∈ ns.foldl ensureStep nets, e.2 = ([] : Dict) := by
  induction ns generalizing nets with
  | nil => exact h
  | cons nk tl ih =>
      rw [List.foldl_cons]
      by_cases hp : (alookup nets nk).isSome
      · rw [ensureStep, if_pos hp]
        exact ih nets h
      · rw [ensureStep, if_neg hp]
        refine ih _ ?_
        intro e he
        rcases mem_aset_elim he with h1 | h2
        · exact h e h1
        · rw [h2]

/-! ### Concrete fixtures used to instantiate the claim theorems -/

/-- A presence oracle that reports every account offline, with the
`last_active_ago` field missing from the response. -/
def probeOffline : String → Except Unit PresenceResponse :=
  fun _ => .ok ⟨"offline", none⟩

/-- A presence oracle that fails with `MatrixError` for `@bad:s` and reports
everyone else offline. -/
def probeMixed : String → Except Unit PresenceResponse :=
  fun u => if u = "@bad:s" then .error () else .ok ⟨"offline", none⟩

/-- A server where no discovery room resolves and every other remote call
fails, except deactivation which succeeds. -/
def oraclesNoDiscovery : Oracles :=
  ⟨"s", fun _ => none, fun _ => .error (), probeOffline, fun _ => true⟩

/-! ### Claim theorems -/

/-- C2: the probe step queries presence only for accounts whose stored
last-seen time is below `now - threshold`; an account reaches the due list
only if its updated last-seen time is still below the deadline and its latest
presence read is `offline`; no account at or above the deadline is returned. -/
theorem c2_probe_eligibility (probe : String → Except Unit PresenceResponse)
    (ua : Dict) (t : Int) (hnd : (akeys ua).Nodup) :
    (∀ u ∈ possible_candidates ua t,
        ∃ v, alookup ua u = some v ∧ v < t - USER_PURGING_THRESHOLD) ∧
    (∀ u ∈ (update_user_activity_for_network probe ua t).2,
        ∃ resp, probe u = .ok resp ∧ resp.presence = "offline" ∧
          alookup (update_user_activity_for_network probe ua t).1 u
            = some (t - lastActiveAgoOf resp) ∧
          t - lastActiveAgoOf resp < t - USER_PURGING_THRESHOLD) ∧
    (∀ u v, alookup ua u = some v → t - USER_PURGING_THRESHOLD ≤ v →
        u ∉ (update_user_activity_for_network probe ua t).2) := by
  refine ⟨fun u hu => (mem_possible_candidates_of_nodup hnd).mp hu, ?_, ?_⟩
  · intro u hu
    obtain ⟨extra, he, hprop⟩ :=
      probeFold_due_append probe t (possible_candidates ua t) ua []
    rw [update_user_activity_for_network] at hu ⊢
    rw [he] at hu
    simp only [List.nil_append] at hu
    obtain ⟨hcand, resp, hok, hoff, hlt⟩ := hprop u hu
    exact ⟨resp, hok, hoff,
      (probeFold_char_ok probe t (possible_candidates_nodup hnd) hcand hok ua []).1, hlt⟩
  · intro u v hv hge hu
    obtain ⟨extra, he, hprop⟩ :=
      probeFold_due_append probe t (possible_candidates ua t) ua []
    rw [update_user_activity_for_network, he] at hu
    simp only [List.nil_append] at hu
    have hcand := (hprop u hu).1
    obtain ⟨w, hw, hlt⟩ := (mem_possible_candidates_of_nodup hnd).mp hcand
    rw [hv] at hw
    have hvw : v = w := by injection hw
    omega

/-- C2 witness: a concrete account whose stored last-seen time is above the
deadline is never in the due list. -/
theorem c2_witness :
    "@fresh:s" ∉ (update_user_activity_for_network probeOffline
      [("@old:s", 0), ("@fresh:s", 345000)] 345600).2 :=
  (c2_probe_eligibility probeOffline [("@old:s", 0), ("@fresh:s", 345000)] 345600
    (by decide)).2.2 "@fresh:s" 345000 rfl (by decide)

/-- C5: when the presence query of one candidate fails, that candidate keeps
its stored last-seen time and is not marked due, while every candidate whose
query succeeds is still updated and classified from its own response,
regardless of other candidates' failures. -/
theorem c5_partial_failure_isolation (probe : String → Except Unit PresenceResponse)
    (ua : Dict) (t : Int) (hnd : (akeys ua).Nodup) (u : String)
    (hu : u ∈ possible_candidates ua t) :
    (∀ e, probe u = .error e →
        alookup (update_user_activity_for_network probe ua t).1 u = alookup ua u ∧
        u ∉ (update_user_activity_for_network probe ua t).2) ∧
    (∀ resp, probe u = .ok resp →
        alookup (update_user_activity_for_network probe ua t).1 u
          = some (t - lastActiveAgoOf resp) ∧
        (u ∈ (update_user_activity_for_network probe ua t).2 ↔
          (t - lastActiveAgoOf resp < t - USER_PURGING_THRESHOLD ∧
            resp.presence = "offline"))) := by
  constructor
  · intro e hp
    have hchar := probeFold_char_error probe t (possible_candidates_nodup hnd) hu hp ua []
    rw [update_user_activity_for_network]
    exact ⟨hchar.1, fun hc => by simpa using hchar.2.mp hc⟩
  · intro resp hp
    have hchar := probeFold_char_ok probe t (possible_candidates_nodup hnd) hu hp ua []
    rw [update_user_activity_for_network]
    refine ⟨hchar.1, ?_⟩
    rw [hchar.2]
    simp

/-- C5 witness: with a batch of two candidates where the first probe fails,
the failing account is left unchanged and not due, and the succeeding one is
still classified as due. -/
theorem c5_witness :
    (alookup (update_user_activity_for_network probeMixed
        [("@bad:s", 0), ("@good:s", 1)] 345600).1 "@bad:s"
      = alookup [("@bad:s", (0 : Int)), ("@good:s", 1)] "@bad:s" ∧
     "@bad:s" ∉ (update_user_activity_for_network probeMixed
        [("@bad:s", 0), ("@good:s", 1)] 345600).2) ∧
    "@good:s" ∈ (update_user_activity_for_network probeMixed
        [("@bad:s", 0), ("@good:s", 1)] 345600).2 :=
  ⟨(c5_partial_failure_isolation probeMixed [("@bad:s", 0), ("@good:s", 1)] 345600
      (by decide) "@bad:s" (by decide)).1 () rfl,
   ((c5_partial_failure_isolation probeMixed [("@bad:s", 0), ("@good:s", 1)] 345600
      (by decide) "@good:s" (by decide)).2 ⟨"offline", none⟩ rfl).2.mpr
      ⟨by decide, rfl⟩⟩

/-- C9: a candidate whose probe succeeds gets
`lastSeenUnix = now - lastActiveAgo` with `lastActiveAgo` the floor of the
millisecond field divided by 1000; a missing field defaults to
`threshold + 1`, so the account stays below the deadline and, when reported
offline, is due. -/
theorem c9_presence_fold (probe : String → Except Unit PresenceResponse)
    (ua : Dict) (t : Int) (hnd : (akeys ua).Nodup) (u : String)
    (hu : u ∈ possible_candidates ua t) (resp : PresenceResponse)
    (hok : probe u = .ok resp) :
    alookup (update_user_activity_for_network probe ua t).1 u
      = some (t - lastActiveAgoOf resp) ∧
    (∀ millis, resp.last_active_ago = some millis →
        alookup (update_user_activity_for_network probe ua t).1 u
          = some (t - Int.fdiv millis 1000)) ∧
    (resp.last_active_ago = none →
        alookup (update_user_activity_for_network probe ua t).1 u
          = some (t - (USER_PURGING_THRESHOLD + 1)) ∧
        (resp.presence = "offline" →
          u ∈ (update_user_activity_for_network probe ua t).2)) := by
  have hchar := probeFold_char_ok probe t (possible_candidates_nodup hnd) hu hok ua []
  rw [update_user_activity_for_network]
  refine ⟨hchar.1, ?_, ?_⟩
  · intro millis hm
    have hlaa : lastActiveAgoOf resp = Int.fdiv millis 1000 := by
      simp [lastActiveAgoOf, hm]
    rw [hchar.1, hlaa]
  · intro hm
    have hlaa : lastActiveAgoOf resp = USER_PURGING_THRESHOLD + 1 := by
      simp [lastActiveAgoOf, hm]
    refine ⟨by rw [hchar.1, hlaa], ?_⟩
    intro hoff
    exact hchar.2.mpr (Or.inr ⟨by rw [hlaa]; omega, hoff⟩)

/-- C9 witness: a concrete candidate with no `last_active_ago` in the
response, reported offline, ends up due. -/
theorem c9_witness :
    "@old:s" ∈ (update_user_activity_for_network probeOffline [("@old:s", 0)] 345600).2 :=
  ((c9_presence_fold probeOffline [("@old:s", 0)] 345600 (by decide) "@old:s"
    (by decide) ⟨"offline", none⟩ rfl).2.2 rfl).2 rfl

/-- C7: membership sync is idempotent — rerunning it with the same member
list changes nothing, and members already present keep their last-seen time. -/
theorem c7_sync_idempotent (resp : Except Unit (List String)) (s : String)
    (ua : Dict) (t1 t2 : Int) :
    fetch_new_members_for_network resp s
        (fetch_new_members_for_network resp s ua t1) t2
      = fetch_new_members_for_network resp s ua t1 ∧
    ∀ u w, alookup ua u = some w →
      alookup (fetch_new_members_for_network resp s ua t1) u = some w := by
  cases resp with
  | error e => exact ⟨rfl, fun u w h => h⟩
  | ok ms =>
      refine ⟨?_, fun u w h => fetchFold_lookup_of_some t1 _ ua h⟩
      show (ms.filter (isLocalMember s)).foldl (fetchStep t2)
          ((ms.filter (isLocalMember s)).foldl (fetchStep t1) ua)
        = (ms.filter (isLocalMember s)).foldl (fetchStep t1) ua
      exact fetchFold_fixed t2 _ _ (fun u hu => fetchFold_all_present t1 _ ua hu)

/-- C7 witness: a concrete double sync is a no-op and a known account keeps
its value. -/
theorem c7_witness :
    fetch_new_members_for_network (.ok ["@a:s", "@b:t", "@admin:s"]) "s"
        (fetch_new_members_for_network (.ok ["@a:s", "@b:t", "@admin:s"]) "s"
          [("@k:s", 5)] 100) 200
      = fetch_new_members_for_network (.ok ["@a:s", "@b:t", "@admin:s"]) "s"
          [("@k:s", 5)] 100 ∧
    alookup (fetch_new_members_for_network (.ok ["@a:s", "@b:t", "@admin:s"]) "s"
        [("@k:s", 5)] 100) "@k:s" = some 5 :=
  ⟨(c7_sync_idempotent (.ok ["@a:s", "@b:t", "@admin:s"]) "s" [("@k:s", 5)] 100 200).1,
   (c7_sync_idempotent (.ok ["@a:s", "@b:t", "@admin:s"]) "s" [("@k:s", 5)] 100 200).2
     "@k:s" 5 rfl⟩

/-- C8: a discovery-room member homed on the local server, not the admin
account, and not yet in the segment is inserted with
`lastSeenUnix = now - threshold - 1` and is immediately a deletion
candidate. -/
theorem c8_new_member_insertion (ms : List String) (s : String) (ua : Dict) (t : Int)
    (m : String) (hm : m ∈ ms) (hs : member_server m = some s.data)
    (ha : startsWithAdmin m = false) (hnew : alookup ua m = none) :
    alookup (fetch_new_members_for_network (.ok ms) s ua t) m
      = some (t - USER_PURGING_THRESHOLD - 1) ∧
    m ∈ possible_candidates (fetch_new_members_for_network (.ok ms) s ua t) t := by
  have hmem : m ∈ ms.filter (isLocalMember s) :=
    List.mem_filter.mpr ⟨hm, by simp [isLocalMember, hs, ha]⟩
  have hins := fetchFold_inserts t (ms.filter (isLocalMember s)) ua hmem hnew
  constructor
  · exact hins
  · rw [mem_possible_candidates]
    exact ⟨t - USER_PURGING_THRESHOLD - 1, mem_of_alookup_eq_some hins, by omega⟩

/-- C8 witness: a concrete fresh local member is inserted one second past the
deadline and is a candidate. -/
theorem c8_witness :
    alookup (fetch_new_members_for_network (.ok ["@new:s"]) "s" [] 345600) "@new:s"
      = some (345600 - USER_PURGING_THRESHOLD - 1) ∧
    "@new:s" ∈ possible_candidates
      (fetch_new_members_for_network (.ok ["@new:s"]) "s" [] 345600) 345600 :=
  c8_new_member_insertion ["@new:s"] "s" [] 345600 "@new:s"
    (List.mem_singleton.mpr rfl) (by decide) (by decide) rfl

/-- C1 counterexample: during a refresh pass whose discovery lookup fails, the
already-known overdue account of network `1` is neither probed nor purged —
the pass returns the ledger with the account and its stale value intact and an
empty due list — even though running the probe step on that segment would have
updated the account and marked it due (third conjunct), so the claimed
probe-and-purge does not happen for that network. -/
theorem c1_counterexample :
    run_user_purger oraclesNoDiscovery ⟨0, [("1", [("@u:s", 0)])]⟩ 345600
      = .ok ⟨345600, [("1", [("@u:s", 0)])]⟩ ∧
    (update_user_activity oraclesNoDiscovery ⟨0, [("1", [("@u:s", 0)])]⟩ 345600).2 = [] ∧
    update_user_activity_for_network oraclesNoDiscovery.probe [("@u:s", 0)] 345600
      = ([("@u:s", 172799)], ["@u:s"]) :=
  ⟨rfl, rfl, rfl⟩

/-- C1 amended: when the discovery-room lookup fails for a network during a
refresh pass, that network is skipped entirely for the pass — its ledger
segment is left untouched and it contributes no due-user entry, so its
already-known accounts are neither probed nor purged until a later pass. -/
theorem c1_discovery_failure_skips_network (o : Oracles) (info : UserActivityInfo)
    (now : Int) (nk : String) (ua : Dict)
    (hf : refresh_due info.last_update now = true)
    (hd : o.discovery nk = none)
    (hm : (nk, ua) ∈ info.network_to_users) :
    (nk, ua) ∈ (update_user_activity o info now).1.network_to_users ∧
    nk ∉ (update_user_activity o info now).2.map Prod.fst := by
  constructor
  · rw [update_user_activity_networks, hf]
    refine List.mem_map.mpr ⟨(nk, ua), hm, ?_⟩
    rw [processNetworkEntry_true_none o now (nk, ua) hd]
  · rw [update_user_activity_dues, hf]
    intro hc
    obtain ⟨pr, hpr, hpr1⟩ := List.mem_map.mp hc
    obtain ⟨e, he, hsnd, hkey, _⟩ := mem_dues_elim o true now info.network_to_users hpr
    have hdd : o.discovery e.1 = none := by rw [hkey, hpr1]; exact hd
    rw [processNetworkEntry_true_none o now e hdd] at hsnd
    simp at hsnd

/-- C1 amended witness: the concrete skipped network keeps its segment and has
no due entry. -/
theorem c1_amended_witness :
    ("1", [("@u:s", (0 : Int))]) ∈ (update_user_activity oraclesNoDiscovery
      ⟨0, [("1", [("@u:s", 0)])]⟩ 345600).1.network_to_users ∧
    "1" ∉ (update_user_activity oraclesNoDiscovery
      ⟨0, [("1", [("@u:s", 0)])]⟩ 345600).2.map Prod.fst :=
  c1_discovery_failure_skips_network oraclesNoDiscovery ⟨0, [("1", [("@u:s", 0)])]⟩
    345600 "1" [("@u:s", 0)] rfl rfl (List.mem_singleton.mpr rfl)

/-- C6: two passes within one threshold window trigger at most one membership
refresh — when the first pass refreshes, it advances `last_update` to its own
time, so the second pass's refresh condition is false. -/
theorem c6_refresh_throttling (o : Oracles) (info : UserActivityInfo) (t1 t2 : Int)
    (h : t2 ≤ t1 + USER_PURGING_THRESHOLD) :
    ¬(refresh_due info.last_update t1 = true ∧
      refresh_due (update_user_activity o info t1).1.last_update t2 = true) := by
  rintro ⟨h1, h2⟩
  rw [update_user_activity_last_update, h1] at h2
  simp only [if_true] at h2
  simp only [refresh_due, decide_eq_true_eq] at h1 h2
  omega

/-- C6 witness: two concrete passes one hundred seconds apart refresh at most
once. -/
theorem c6_witness :
    ¬(refresh_due (UserActivityInfo.mk 0 []).last_update 345600 = true ∧
      refresh_due (update_user_activity oraclesNoDiscovery
        (UserActivityInfo.mk 0 []) 345600).1.last_update 345700 = true) :=
  c6_refresh_throttling oraclesNoDiscovery ⟨0, []⟩ 345600 345700 (by decide)

/-- C10: when the refresh condition holds at the start of a pass,
`last_update` is advanced to `now` whatever the oracles later do (every
discovery lookup may fail, no account may be added), and no pass within a
full threshold after it refreshes again. -/
theorem c10_refresh_advances (o : Oracles) (info : UserActivityInfo) (t : Int)
    (h : refresh_due info.last_update t = true) :
    (update_user_activity o info t).1.last_update = t ∧
    ∀ t2, t2 ≤ t + USER_PURGING_THRESHOLD →
      refresh_due (update_user_activity o info t).1.last_update t2 = false := by
  have hl : (update_user_activity o info t).1.last_update = t := by
    rw [update_user_activity_last_update, h]
    simp only [if_true]
  refine ⟨hl, ?_⟩
  intro t2 ht2
  rw [hl]
  simp only [refresh_due, decide_eq_false_iff_not]
  omega

/-- C10 witness: a concrete pass against a server with no reachable discovery
room still advances `last_update`. -/
theorem c10_witness :
    (update_user_activity oraclesNoDiscovery (UserActivityInfo.mk 0
      [("1", [("@u:s", 0)])]) 345600).1.last_update = 345600 :=
  (c10_refresh_advances oraclesNoDiscovery ⟨0, [("1", [("@u:s", 0)])]⟩ 345600 rfl).1

/-- C3 counterexample: two concrete invalid persisted contents — a valid-JSON
non-ledger document and an invalid-UTF-8 file — abort loading with an uncaught
exception instead of yielding the fallback ledger, so the fallback does not
hold for every invalid persisted content. -/
theorem c3_counterexample :
    load_global_user_activity PersistedLedger.wrongShape 1000000 = .error () ∧
    load_global_user_activity PersistedLedger.undecodable 1000000 = .error () :=
  ⟨rfl, rfl⟩

/-- C3 amended: a persisted ledger that is absent or whose text is not valid
JSON loads as the empty fallback — no networks, `last_update` one second past
the refresh deadline so a refresh occurs — and a full pass starting from it
(after the network bootstrap) succeeds for every oracle behaviour; but
invalid-UTF-8 content and valid-JSON non-ledger content abort uncaught
instead of falling back. -/
theorem c3_load_fallback_caught (persisted : PersistedLedger) (now : Int) (o : Oracles)
    (ns : List String)
    (hr : persisted = PersistedLedger.malformed ∨ persisted = PersistedLedger.absent) :
    load_global_user_activity persisted now = .ok (emptyActivity now) ∧
    (emptyActivity now).network_to_users = [] ∧
    refresh_due (emptyActivity now).last_update now = true ∧
    (∃ out, run_user_purger o (ensure_networks ns (emptyActivity now)) now = .ok out) ∧
    load_global_user_activity PersistedLedger.undecodable now = .error () ∧
    load_global_user_activity PersistedLedger.wrongShape now = .error () := by
  have hload : load_global_user_activity persisted now = .ok (emptyActivity now) := by
    rcases hr with h | h <;> rw [h] <;> rfl
  refine ⟨hload, rfl, ?_, ?_, rfl, rfl⟩
  · simp only [emptyActivity, refresh_due, decide_eq_true_eq]
    omega
  · apply run_user_purger_ok
    · exact ensureFold_keys_nodup ns [] List.nodup_nil
    · intro e he
      rw [ensureFold_segments_empty ns [] (by simp) e he]
      exact List.nodup_nil

/-- C3 witness: a concrete malformed persisted file yields the fallback ledger
and a pass over one network completes without error, while the uncaught
invalid contents abort. -/
theorem c3_witness :
    load_global_user_activity PersistedLedger.malformed 1000000
      = .ok (emptyActivity 1000000) ∧
    (emptyActivity 1000000).network_to_users = [] ∧
    refresh_due (emptyActivity 1000000).last_update 1000000 = true ∧
    (∃ out, run_user_purger oraclesNoDiscovery
      (ensure_networks ["1"] (emptyActivity 1000000)) 1000000 = .ok out) ∧
    load_global_user_activity PersistedLedger.undecodable 1000000 = .error () ∧
    load_global_user_activity PersistedLedger.wrongShape 1000000 = .error () :=
  c3_load_fallback_caught PersistedLedger.malformed 1000000 oraclesNoDiscovery ["1"]
    (Or.inl rfl)

/-- C4 evaluation at the failing input: the first purge of `@u:s` succeeds and
removes the key from the segment; the record of an account whose deactivation
call fails is left in place; but a second purge pass with the same due list
hits the uncaught `KeyError` raised by `user_activity[user_id]` in the
offline-duration log line — an error, not the claimed no-op. -/
theorem c4_purge_second_pass_keyerror :
    purge_inactive_users_for_network (fun _ => true) [("@u:s", 0)] ["@u:s"]
      = .ok [] ∧
    purge_inactive_users_for_network (fun _ => false) [("@u:s", 0)] ["@u:s"]
      = .ok [("@u:s", 0)] ∧
    purge_inactive_users_for_network (fun _ => true) [] ["@u:s"] = .error () :=
  ⟨rfl, rfl, rfl⟩

end Purger
